import Mathlib

set_option maxHeartbeats 1000000

/-!
Verification development for the calc-fold line calculator.

The repository holds two near-identical C++ variants of the core:
src/unnamed/part_000 (with a dedicated left_fold function, suffix P below)
and src/src/calc.cpp (with delete_brackets and is_fold, suffix C below).
Lines are embedded as List Char; the C++ std::string index operator at the
size position yields the terminating null character, which getD models.
Doubles are embedded as exact rationals, with the library functions
std::sqrt and std::pow abstracted as function parameters sqrtFn and powFn
(std::fmod is exact on its operands and is embedded as fmodQ).
Each evaluator returns the new accumulator value paired with a Bool flag
that is true on the diagnostic-free outcomes and false exactly on the
error outcomes of the source (the branches that write a diagnostic to
std::cerr and make the call yield the unchanged accumulator, plus the
diagnosed SQRT domain outcome).
-/

namespace CalcFold

/-- Out-of-range reads: std::string operator[] at the size index yields the
terminating null character, so getD defaults to it. -/
def nulChar : Char := Char.ofNat 0

/-- C isspace in the default locale: space, tab, newline, vertical tab,
form feed, carriage return. -/
def isSpaceC (c : Char) : Bool :=
  c = ' ' || c = '\t' || c = '\n' || c = '\x0b' || c = '\x0c' || c = '\r'

/-- Constant max_decimal_digits = 10 from both source variants. -/
def maxDecimalDigits : Nat := 10

/-- Digit character value, the source expression line[i] - '0'. -/
def digitVal (c : Char) : Nat := c.toNat - '0'.toNat

/-- Number of decimal digit characters in a character list. -/
def digitCount (l : List Char) : Nat := (l.filter (fun c => c.isDigit)).length

/-- Operation enum from the source (enum class Op). -/
inductive Op where
  | ERR | SET | ADD | SUB | MUL | DIV | REM | NEG | POW | SQRT
deriving DecidableEq

/-- Function arity from the source: 0 for ERR, 1 for NEG and SQRT, 2 for the
rest. -/
def arityOp : Op → Nat
  | .ERR => 0
  | .NEG => 1
  | .SQRT => 1
  | .SET => 2
  | .ADD => 2
  | .SUB => 2
  | .MUL => 2
  | .DIV => 2
  | .REM => 2
  | .POW => 2

/-- Function parse_op from src/unnamed/part_000: a switch on line[i++].
On a digit the cursor is not advanced (i++ immediately undone by --i, the
digit belongs to the argument); the rollback lambda subtracts exactly the
number of characters consumed, so every ERR return leaves the cursor where
it started. The calc.cpp variant runs the same switch on the
delete_brackets rewriting of the line, see parseOpC. -/
def parseOpP (line : List Char) (i : Nat) : Op × Nat :=
  let c := line.getD i nulChar
  if c.isDigit then (Op.SET, i + 1 - 1)
  else if c = '+' then (Op.ADD, i + 1)
  else if c = '-' then (Op.SUB, i + 1)
  else if c = '*' then (Op.MUL, i + 1)
  else if c = '/' then (Op.DIV, i + 1)
  else if c = '%' then (Op.REM, i + 1)
  else if c = '_' then (Op.NEG, i + 1)
  else if c = '^' then (Op.POW, i + 1)
  else if c = 'S' then
    if line.getD (i + 1) nulChar = 'Q' then
      if line.getD (i + 2) nulChar = 'R' then
        if line.getD (i + 3) nulChar = 'T' then (Op.SQRT, i + 4)
        else (Op.ERR, i + 4 - 4)
      else (Op.ERR, i + 3 - 3)
    else (Op.ERR, i + 2 - 2)
  else (Op.ERR, i + 1 - 1)

/-- Function skip_ws from both variants: advance the cursor past whitespace. -/
def skipWs (line : List Char) (i : Nat) : Nat :=
  if h : i < line.length then
    if isSpaceC (line.getD i nulChar) then skipWs line (i + 1) else i
  else i
termination_by line.length - i

/-- The scanning while loop of parse_arg, identical in both variants:
consume digits and decimal points while good, in range, and fewer than
max_decimal_digits digits have been counted; digits before the point
accumulate by multiply-by-ten-and-add, digits after by a fractional weight
divided by ten per digit; any other character clears good and stops at that
position. Note the source places no restriction on repeated decimal
points: every '.' merely switches or keeps the fractional mode and is
consumed without counting. Returns (res, i, count, good); count is the
local digit counter of the source. -/
def parseArgLoop (line : List Char) (i count : Nat) (integer : Bool)
    (res fraction : ℚ) : ℚ × Nat × Nat × Bool :=
  if h : i < line.length ∧ count < maxDecimalDigits then
    if (line.getD i nulChar).isDigit then
      if integer then
        parseArgLoop line (i + 1) (count + 1) integer
          (res * 10 + (digitVal (line.getD i nulChar) : ℚ)) fraction
      else
        parseArgLoop line (i + 1) (count + 1) integer
          (res + (digitVal (line.getD i nulChar) : ℚ) * (fraction / 10))
          (fraction / 10)
    else if line.getD i nulChar = '.' then
      parseArgLoop line (i + 1) count false res fraction
    else (res, i, count, false)
  else (res, i, count, true)
termination_by line.length - i

/-- Function parse_arg from src/unnamed/part_000: good is set to true on
entry; the unparsed-suffix diagnostic in this variant does not clear good.
Returns (res, i, good). -/
def parseArgP (line : List Char) (i : Nat) : ℚ × Nat × Bool :=
  let r := parseArgLoop line i 0 true 0 1
  (r.1, r.2.1, r.2.2.2)

/-- Function parse_arg from src/src/calc.cpp: good is an in-out parameter,
not reset on entry (false on entry skips the scan and reports an error with
res 0), and in this variant an unparsed suffix clears good. Returns
(res, i, good). -/
def parseArgC (line : List Char) (i : Nat) (good : Bool) : ℚ × Nat × Bool :=
  if good then
    let r := parseArgLoop line i 0 true 0 1
    if r.2.2.2 then
      if r.2.1 < line.length then (r.1, r.2.1, false) else (r.1, r.2.1, true)
    else (r.1, r.2.1, false)
  else (0, i, false)

/-- Function unary from both variants, with sqrtFn standing for std::sqrt.
The flag is false exactly on the diagnosed branch (Bad argument for SQRT
when the accumulator is not positive, which returns the accumulator
unchanged through the fallthrough to default). -/
def unaryEval (sqrtFn : ℚ → ℚ) (current : ℚ) (op : Op) : ℚ × Bool :=
  match op with
  | Op.NEG => (-current, true)
  | Op.SQRT => if 0 < current then (sqrtFn current, true) else (current, false)
  | _ => (current, true)

/-- Truncation toward zero on rationals, as used by std::fmod. -/
def rtrunc (q : ℚ) : ℤ := if 0 ≤ q then ⌊q⌋ else ⌈q⌉

/-- Exact value of std::fmod: l - r * trunc(l / r). std::fmod is computed
exactly (no rounding) on its operands, so this is faithful for the exact
inputs modelled here; the result carries the sign of the dividend l. -/
def fmodQ (l r : ℚ) : ℚ := l - r * (rtrunc (l / r) : ℚ)

/-- Function binary from src/unnamed/part_000: good is set to true on entry
and cleared exactly on division or remainder by zero, where left is
returned; powFn stands for std::pow. -/
def binaryP (powFn : ℚ → ℚ → ℚ) (op : Op) (left right : ℚ) : ℚ × Bool :=
  match op with
  | Op.SET => (right, true)
  | Op.ADD => (left + right, true)
  | Op.SUB => (left - right, true)
  | Op.MUL => (left * right, true)
  | Op.DIV => if right ≠ 0 then (left / right, true) else (left, false)
  | Op.REM => if right ≠ 0 then (fmodQ left right, true) else (left, false)
  | Op.POW => (powFn left right, true)
  | _ => (left, true)

/-- Function binary from src/src/calc.cpp: same arithmetic, but good is an
in-out flag left untouched except on division or remainder by zero. -/
def binaryC (powFn : ℚ → ℚ → ℚ) (op : Op) (left right : ℚ) (good : Bool) :
    ℚ × Bool :=
  match op with
  | Op.SET => (right, good)
  | Op.ADD => (left + right, good)
  | Op.SUB => (left - right, good)
  | Op.MUL => (left * right, good)
  | Op.DIV => if right ≠ 0 then (left / right, good) else (left, false)
  | Op.REM => if right ≠ 0 then (fmodQ left right, good) else (left, false)
  | Op.POW => (powFn left right, good)
  | _ => (left, good)

/-- Function skip_brackets from src/unnamed/part_000: while the cursor is in
range, advance it and stop one past a close bracket found at the advanced
position. -/
def skipBracketsP (line : List Char) (i : Nat) : Nat :=
  if h : i < line.length then
    if line.getD (i + 1) nulChar = ')' then i + 2
    else skipBracketsP line (i + 1)
  else i
termination_by line.length - i

/-- Function parse_number from src/unnamed/part_000 and the identical
parse_number_length from src/src/calc.cpp: the length of the
whitespace-free character run starting at i. -/
def parseNumberLen (line : List Char) (i : Nat) : Nat :=
  if h : i < line.length then
    if isSpaceC (line.getD i nulChar) then 0
    else 1 + parseNumberLen line (i + 1)
  else 0
termination_by line.length - i

theorem skipWs_ge (line : List Char) (i : Nat) : i ≤ skipWs line i := by
  unfold skipWs
  split
  · split
    · exact Nat.le_trans (Nat.le_succ i) (skipWs_ge line (i + 1))
    · exact Nat.le_refl i
  · exact Nat.le_refl i
termination_by line.length - i

theorem skipWs_gt_of_ws (line : List Char) (i : Nat) (h1 : i < line.length)
    (h2 : isSpaceC (line.getD i nulChar) = true) : i + 1 ≤ skipWs line i := by
  unfold skipWs
  rw [dif_pos h1, if_pos h2]
  exact skipWs_ge line (i + 1)

theorem parseNumberLen_pos (line : List Char) (i : Nat) (h1 : i < line.length)
    (h2 : isSpaceC (line.getD i nulChar) = false) :
    1 ≤ parseNumberLen line i := by
  unfold parseNumberLen
  rw [dif_pos h1, if_neg (by simp only [h2]; simp)]
  omega

/-- The while loop of left_fold from src/unnamed/part_000: take the
whitespace-free run at the cursor as the token, parse it with a fresh local
cursor (pos = 0), fold it into current via binary; on a token parse failure
or a failed binary step return old, the accumulator from before the line,
with the flag cleared. On exhausting the line return the folded value. -/
def leftFoldLoop (powFn : ℚ → ℚ → ℚ) (op : Op) (old : ℚ) (line : List Char)
    (current : ℚ) (i : Nat) : ℚ × Bool :=
  if h : i < line.length then
    if (parseArgP ((line.drop i).take (parseNumberLen line i)) 0).2.2 = false then
      (old, false)
    else
      if (binaryP powFn op current
            (parseArgP ((line.drop i).take (parseNumberLen line i)) 0).1).2 = false then
        (old, false)
      else
        leftFoldLoop powFn op old line
          (binaryP powFn op current
            (parseArgP ((line.drop i).take (parseNumberLen line i)) 0).1).1
          (skipWs line (i + parseNumberLen line i))
  else (current, true)
termination_by line.length - i
decreasing_by
  have hge : i + parseNumberLen line i ≤ skipWs line (i + parseNumberLen line i) :=
    skipWs_ge line (i + parseNumberLen line i)
  by_cases hs : isSpaceC (line.getD i nulChar) = true
  · have h0 : parseNumberLen line i = 0 := by
      unfold parseNumberLen
      rw [dif_pos h, if_pos hs]
    have hgt : i + 1 ≤ skipWs line i := skipWs_gt_of_ws line i h hs
    rw [h0] at hge ⊢
    rw [Nat.add_zero] at hge ⊢
    omega
  · have h1 : 1 ≤ parseNumberLen line i :=
      parseNumberLen_pos line i h (by simpa using hs)
    omega

/-- Function left_fold from src/unnamed/part_000. The flag is false exactly
on its error returns: wrong operation for the fold (arity not 2, or SET),
no arguments after the bracket, or an aborted fold. -/
def leftFold (powFn : ℚ → ℚ → ℚ) (current : ℚ) (line : List Char) :
    ℚ × Bool :=
  if arityOp (parseOpP line 1).1 ≠ 2 ∨ (parseOpP line 1).1 = Op.SET then
    (current, false)
  else
    if skipWs line (skipBracketsP line 0) = line.length then (current, false)
    else
      leftFoldLoop powFn (parseOpP line 1).1 current line current
        (skipWs line (skipBracketsP line 0))

/-- The non-fold branch of process_line from src/unnamed/part_000:
recognize the operation at cursor 0 and dispatch on its arity. Arity 2:
skip whitespace, parse exactly one literal; an empty parse (cursor
unmoved), or an unconsumed suffix, is a diagnosed error yielding the
unchanged accumulator; otherwise apply binary. Arity 1: any unconsumed
suffix is a diagnosed error; otherwise apply unary. Arity 0 (ERR) yields
the unchanged accumulator. -/
def nonFoldP (sqrtFn : ℚ → ℚ) (powFn : ℚ → ℚ → ℚ) (current : ℚ)
    (line : List Char) : ℚ × Bool :=
  if arityOp (parseOpP line 0).1 = 2 then
    if (parseArgP line (skipWs line (parseOpP line 0).2)).2.1 =
        skipWs line (parseOpP line 0).2 then (current, false)
    else
      if (parseArgP line (skipWs line (parseOpP line 0).2)).2.1 < line.length then
        (current, false)
      else
        binaryP powFn (parseOpP line 0).1 current
          (parseArgP line (skipWs line (parseOpP line 0).2)).1
  else if arityOp (parseOpP line 0).1 = 1 then
    if (parseOpP line 0).2 < line.length then (current, false)
    else unaryEval sqrtFn current (parseOpP line 0).1
  else (current, false)

/-- Function process_line from src/unnamed/part_000: dispatch to left_fold
exactly when character 0 is an open bracket and character 2 is a close
bracket, otherwise evaluate the plain path. -/
def processLineP (sqrtFn : ℚ → ℚ) (powFn : ℚ → ℚ → ℚ) (current : ℚ)
    (line : List Char) : ℚ × Bool :=
  if line.getD 0 nulChar = '(' ∧ line.getD 2 nulChar = ')' then
    leftFold powFn current line
  else nonFoldP sqrtFn powFn current line

/-- Scanning loop of delete_brackets from src/src/calc.cpp. -/
def deleteBracketsAux (line : List Char) (i : Nat) : List Char :=
  if h : i < line.length then
    if line.getD i nulChar = ')' then
      (line.drop 1).take (i - 1) ++ line.drop (i + 1)
    else if isSpaceC (line.getD i nulChar) then line
    else deleteBracketsAux line (i + 1)
  else line
termination_by line.length - i

/-- Function delete_brackets from src/src/calc.cpp: if the line opens with a
bracket and a close bracket occurs before any whitespace, remove the
opening bracket and that close bracket (substr(1, i-1) + substr(i+1, ...)),
otherwise return the line unchanged. -/
def deleteBrackets (line : List Char) : List Char :=
  if line.getD 0 nulChar = '(' then deleteBracketsAux line 0 else line

/-- Function parse_op from src/src/calc.cpp: the same switch as
src/unnamed/part_000, run on the delete_brackets rewriting of the raw
line. -/
def parseOpC (lineRaw : List Char) (i : Nat) : Op × Nat :=
  parseOpP (deleteBrackets lineRaw) i

/-- Scanning loop of skip_brackets from src/src/calc.cpp: first position
past a close bracket at or after i, or the old position if none occurs. -/
def skipBracketsCAux (line : List Char) (oldI i : Nat) : Nat :=
  if h : i < line.length then
    if line.getD i nulChar = ')' then i + 1
    else skipBracketsCAux line oldI (i + 1)
  else oldI
termination_by line.length - i

/-- Function skip_brackets from src/src/calc.cpp. -/
def skipBracketsC (line : List Char) (i : Nat) : Nat :=
  if line.getD 0 nulChar = '(' then skipBracketsCAux line i i else i

/-- Function is_fold from src/src/calc.cpp: the line opens with a bracket
and a close bracket occurs anywhere in it. -/
def isFoldC (line : List Char) : Bool :=
  if line.getD 0 nulChar = '(' then line.contains ')' else false

/-- Function parse_number from src/src/calc.cpp: collect the
whitespace-separated character runs from i. The No-argument diagnostic it
emits when the result is empty is reflected by the flag in processLineC. -/
def parseNumbersC (line : List Char) (i : Nat) : List (List Char) :=
  if h : i < line.length then
    if hn : parseNumberLen line (skipWs line i) = 0 then []
    else
      ((line.drop (skipWs line i)).take (parseNumberLen line (skipWs line i))) ::
        parseNumbersC line (skipWs line i + parseNumberLen line (skipWs line i))
  else []
termination_by line.length - i
decreasing_by
  have hge : i ≤ skipWs line i := skipWs_ge line i
  omega

/-- The argument loop of process_line from src/src/calc.cpp, iterating over
the parsed tokens. In fold mode (is_fold) the SET operation is rejected,
and each token is reparsed from a fresh cursor; in plain mode the argument
is parsed from the line at the running cursor i, and a cursor that did not
move is the diagnosed No-argument error. The good flag threads from
parse_arg through binary as in the source; every error exit returns orig,
the accumulator from before the line. -/
def foldLoopC (powFn : ℚ → ℚ → ℚ) (op : Op) (isf : Bool) (line : List Char)
    (orig : ℚ) : ℚ → Nat → List (List Char) → ℚ × Bool
  | res, _, [] => (res, true)
  | res, i, t :: ts =>
    if isf then
      if op = Op.SET then (orig, false)
      else
        if (binaryC powFn op res (parseArgC t 0 true).1
              (parseArgC t 0 true).2.2).2 = false then (orig, false)
        else foldLoopC powFn op isf line orig
          (binaryC powFn op res (parseArgC t 0 true).1
            (parseArgC t 0 true).2.2).1 i ts
    else
      if (parseArgC line (skipWs line i) true).2.1 = skipWs line i then (orig, false)
      else
        if (binaryC powFn op res (parseArgC line (skipWs line i) true).1
              (parseArgC line (skipWs line i) true).2.2).2 = false then (orig, false)
        else foldLoopC powFn op isf line orig
          (binaryC powFn op res (parseArgC line (skipWs line i) true).1
            (parseArgC line (skipWs line i) true).2.2).1
          (parseArgC line (skipWs line i) true).2.1 ts

/-- Function process_line from src/src/calc.cpp. Arity 2: skip a bracket
group, split the rest into tokens, and run the argument loop (an empty
token list is the diagnosed No-argument outcome, returning the unchanged
accumulator). Arity 1: any unconsumed suffix is a diagnosed error,
otherwise apply unary. Arity 0 (ERR) yields the unchanged accumulator. -/
def processLineC (sqrtFn : ℚ → ℚ) (powFn : ℚ → ℚ → ℚ) (current : ℚ)
    (line : List Char) : ℚ × Bool :=
  if arityOp (parseOpC line 0).1 = 2 then
    if parseNumbersC line (skipBracketsC line (parseOpC line 0).2) = [] then
      (current, false)
    else
      foldLoopC powFn (parseOpC line 0).1 (isFoldC line) line current current
        (skipBracketsC line (parseOpC line 0).2)
        (parseNumbersC line (skipBracketsC line (parseOpC line 0).2))
  else if arityOp (parseOpC line 0).1 = 1 then
    if (parseOpC line 0).2 < line.length then (current, false)
    else unaryEval sqrtFn current (parseOpC line 0).1
  else (current, false)

theorem dropWhile_length_le_self (p : Char → Bool) (l : List Char) :
    (l.dropWhile p).length ≤ l.length := by
  induction l with
  | nil => simp
  | cons c cs ih =>
    rw [List.dropWhile_cons]
    split
    · exact Nat.le_trans ih (Nat.le_succ _)
    · exact Nat.le_refl _

/-- Specification-side definition (spec 4.2, left-fold): the
whitespace-delimited tokens of a character sequence. -/
def wsTokens : List Char → List (List Char)
  | [] => []
  | c :: cs =>
    if isSpaceC c then wsTokens cs
    else (c :: cs.takeWhile (fun d => !isSpaceC d)) ::
      wsTokens (cs.dropWhile (fun d => !isSpaceC d))
termination_by l => l.length
decreasing_by
  · simp
  · have := dropWhile_length_le_self (fun d => !isSpaceC d) cs
    simp
    omega

/-- Specification-side definition (spec 4.2, left-fold): fold the binary
operation over a token list, each token parsed as a literal with its own
local cursor reset to zero; abort the whole fold and return old, the
accumulator from before the line, if a token fails to parse or a fold step
fails. -/
def specFoldTokens (powFn : ℚ → ℚ → ℚ) (op : Op) (old : ℚ) :
    ℚ → List (List Char) → ℚ × Bool
  | cur, [] => (cur, true)
  | cur, t :: ts =>
    if (parseArgP t 0).2.2 = false then (old, false)
    else
      if (binaryP powFn op cur (parseArgP t 0).1).2 = false then (old, false)
      else specFoldTokens powFn op old (binaryP powFn op cur (parseArgP t 0).1).1 ts

/-- Example line with an unrecognized leading operator. -/
def lineUnknown : List Char := "x".toList

/-- Example line: a valid left fold of addition. -/
def lineFoldAdd : List Char := "(+) 1 2 3".toList

/-- Example line: a left fold with one malformed token. -/
def lineFoldBad : List Char := "(+) 1 x 3".toList

/-- Example line from the spec: the literal text SET 5. -/
def lineSet5 : List Char := "SET 5".toList

/-- Example line: a bare digit, the form that actually invokes Set. -/
def lineDigit5 : List Char := "5".toList

/-- Example line: division by zero. -/
def lineDiv0 : List Char := "/ 0".toList

/-- Example line: remainder by zero. -/
def lineRem0 : List Char := "% 0".toList

/-- Example line: the square root operation. -/
def lineSqrt : List Char := "SQRT".toList

/-- Example line: the negate operation. -/
def lineNeg : List Char := "_".toList

theorem drop_eq_getD_cons (l : List Char) (i : Nat) (h : i < l.length) :
    l.drop i = l.getD i nulChar :: l.drop (i + 1) := by
  rw [List.drop_eq_getElem_cons h, List.getD_eq_getElem l nulChar h]

theorem digitCount_cons (c : Char) (x : List Char) :
    digitCount (c :: x) = (if c.isDigit then 1 else 0) + digitCount x := by
  simp only [digitCount, List.filter_cons]
  split <;> simp <;> try omega

theorem parseNumberLen_eq_takeWhile (line : List Char) :
    ∀ (i : Nat), parseNumberLen line i =
      ((line.drop i).takeWhile (fun d => !isSpaceC d)).length := by
  intro i
  induction i using parseNumberLen.induct line with
  | case1 i hlt hws =>
    rw [parseNumberLen, dif_pos hlt, if_pos hws, drop_eq_getD_cons line i hlt,
      List.takeWhile_cons,
      if_neg (show ¬(!isSpaceC (line.getD i nulChar)) = true by
        rw [hws]; decide)]
    rfl
  | case2 i hlt hws ih =>
    have hf : isSpaceC (line.getD i nulChar) = false :=
      Bool.eq_false_iff.mpr hws
    rw [parseNumberLen, dif_pos hlt, if_neg hws, drop_eq_getD_cons line i hlt,
      List.takeWhile_cons,
      if_pos (show (!isSpaceC (line.getD i nulChar)) = true by
        rw [hf]; decide),
      List.length_cons, ih]
    omega
  | case3 i hge =>
    rw [parseNumberLen, dif_neg hge, List.drop_eq_nil_of_le (by omega)]
    rfl

theorem take_takeWhile_length (p : Char → Bool) (l : List Char) :
    l.take (l.takeWhile p).length = l.takeWhile p := by
  induction l with
  | nil => simp
  | cons c cs ih =>
    by_cases hp : p c = true
    · simp [List.takeWhile_cons, hp, ih]
    · simp [List.takeWhile_cons, hp]

theorem drop_takeWhile_length (p : Char → Bool) (l : List Char) :
    l.drop (l.takeWhile p).length = l.dropWhile p := by
  induction l with
  | nil => simp
  | cons c cs ih =>
    by_cases hp : p c = true
    · simp [List.takeWhile_cons, List.dropWhile_cons, hp, ih]
    · simp [List.takeWhile_cons, List.dropWhile_cons, hp]

theorem skipWs_drop (line : List Char) : ∀ (i : Nat),
    line.drop (skipWs line i) =
      (line.drop i).dropWhile (fun d => isSpaceC d) := by
  intro i
  induction i using skipWs.induct line with
  | case1 i hlt hws ih =>
    rw [skipWs, dif_pos hlt, if_pos hws, ih, drop_eq_getD_cons line i hlt,
      List.dropWhile_cons_of_pos hws]
  | case2 i hlt hws =>
    rw [skipWs, dif_pos hlt, if_neg hws, drop_eq_getD_cons line i hlt,
      List.dropWhile_cons_of_neg hws]
  | case3 i hge =>
    rw [skipWs, dif_neg hge, List.drop_eq_nil_of_le (by omega)]
    rfl

theorem skipWs_not_ws (line : List Char) : ∀ (i : Nat),
    skipWs line i < line.length →
    isSpaceC (line.getD (skipWs line i) nulChar) = false := by
  intro i
  induction i using skipWs.induct line with
  | case1 i hlt hws ih =>
    rw [skipWs, dif_pos hlt, if_pos hws]
    exact ih
  | case2 i hlt hws =>
    rw [skipWs, dif_pos hlt, if_neg hws]
    intro _
    simpa using hws
  | case3 i hge =>
    rw [skipWs, dif_neg hge]
    intro h
    exact absurd h hge

theorem wsTokens_dropWhile_ws (x : List Char) :
    wsTokens (x.dropWhile (fun d => isSpaceC d)) = wsTokens x := by
  induction x with
  | nil => simp
  | cons c cs ih =>
    by_cases hc : isSpaceC c = true
    · rw [List.dropWhile_cons, if_pos hc, ih]
      conv_rhs => rw [wsTokens]
      rw [if_pos hc]
    · rw [List.dropWhile_cons, if_neg hc]

theorem leftFoldLoop_eq_specFold (powFn : ℚ → ℚ → ℚ) (op : Op) (old : ℚ)
    (line : List Char) : ∀ (current : ℚ) (i : Nat),
    (i < line.length → isSpaceC (line.getD i nulChar) = false) →
    leftFoldLoop powFn op old line current i =
      specFoldTokens powFn op old current (wsTokens (line.drop i)) := by
  intro current i
  induction current, i using leftFoldLoop.induct powFn op old line with
  | case1 current i hlt hpr =>
    intro hnw
    have hc : isSpaceC (line.getD i nulChar) = false := hnw hlt
    have htok : (line.drop i).take (parseNumberLen line i) =
        (line.drop i).takeWhile (fun d => !isSpaceC d) := by
      rw [parseNumberLen_eq_takeWhile]
      exact take_takeWhile_length _ _
    have htl : wsTokens (line.drop i) =
        ((line.drop i).takeWhile (fun d => !isSpaceC d)) ::
          wsTokens ((line.drop (i + 1)).dropWhile (fun d => !isSpaceC d)) := by
      rw [drop_eq_getD_cons line i hlt]
      conv_lhs => rw [wsTokens]
      rw [if_neg (show ¬isSpaceC (line.getD i nulChar) = true by
        rw [hc]; decide)]
      rw [List.takeWhile_cons,
        if_pos (show (!isSpaceC (line.getD i nulChar)) = true by
          rw [hc]; decide)]
    rw [leftFoldLoop, dif_pos hlt, if_pos hpr, htl, specFoldTokens]
    rw [htok] at hpr
    rw [if_pos hpr]
  | case2 current i hlt hpr hbr =>
    intro hnw
    have hc : isSpaceC (line.getD i nulChar) = false := hnw hlt
    have htok : (line.drop i).take (parseNumberLen line i) =
        (line.drop i).takeWhile (fun d => !isSpaceC d) := by
      rw [parseNumberLen_eq_takeWhile]
      exact take_takeWhile_length _ _
    have htl : wsTokens (line.drop i) =
        ((line.drop i).takeWhile (fun d => !isSpaceC d)) ::
          wsTokens ((line.drop (i + 1)).dropWhile (fun d => !isSpaceC d)) := by
      rw [drop_eq_getD_cons line i hlt]
      conv_lhs => rw [wsTokens]
      rw [if_neg (show ¬isSpaceC (line.getD i nulChar) = true by
        rw [hc]; decide)]
      rw [List.takeWhile_cons,
        if_pos (show (!isSpaceC (line.getD i nulChar)) = true by
          rw [hc]; decide)]
    rw [leftFoldLoop, dif_pos hlt, if_neg hpr, if_pos hbr, htl, specFoldTokens]
    rw [htok] at hpr hbr
    rw [if_neg hpr, if_pos hbr]
  | case3 current i hlt hpr hbr ih =>
    intro hnw
    have hc : isSpaceC (line.getD i nulChar) = false := hnw hlt
    have htok : (line.drop i).take (parseNumberLen line i) =
        (line.drop i).takeWhile (fun d => !isSpaceC d) := by
      rw [parseNumberLen_eq_takeWhile]
      exact take_takeWhile_length _ _
    have htl : wsTokens (line.drop i) =
        ((line.drop i).takeWhile (fun d => !isSpaceC d)) ::
          wsTokens ((line.drop (i + 1)).dropWhile (fun d => !isSpaceC d)) := by
      rw [drop_eq_getD_cons line i hlt]
      conv_lhs => rw [wsTokens]
      rw [if_neg (show ¬isSpaceC (line.getD i nulChar) = true by
        rw [hc]; decide)]
      rw [List.takeWhile_cons,
        if_pos (show (!isSpaceC (line.getD i nulChar)) = true by
          rw [hc]; decide)]
    have hrest : line.drop (skipWs line (i + parseNumberLen line i)) =
        ((line.drop (i + 1)).dropWhile (fun d => !isSpaceC d)).dropWhile
          (fun d => isSpaceC d) := by
      rw [skipWs_drop]
      congr 1
      rw [← List.drop_drop]
      rw [parseNumberLen_eq_takeWhile, drop_takeWhile_length]
      rw [drop_eq_getD_cons line i hlt]
      rw [List.dropWhile_cons,
        if_pos (show (!isSpaceC (line.getD i nulChar)) = true by
          rw [hc]; decide)]
    rw [leftFoldLoop, dif_pos hlt, if_neg hpr, if_neg hbr]
    rw [ih (skipWs_not_ws line (i + parseNumberLen line i))]
    rw [hrest, wsTokens_dropWhile_ws]
    rw [htl, specFoldTokens]
    rw [htok] at hpr hbr
    rw [if_neg hpr, if_neg hbr]
    rw [htok]
  | case4 current i hlt =>
    intro _
    rw [leftFoldLoop, dif_neg hlt, List.drop_eq_nil_of_le (by omega)]
    rw [wsTokens, specFoldTokens]

theorem binaryP_flag_true_of_total (powFn : ℚ → ℚ → ℚ) (op : Op) (a r : ℚ)
    (h : op = Op.ADD ∨ op = Op.SUB ∨ op = Op.MUL ∨ op = Op.POW) :
    (binaryP powFn op a r).2 = true := by
  rcases h with h | h | h | h <;> subst h <;> simp [binaryP]

theorem specFoldTokens_foldl (powFn : ℚ → ℚ → ℚ) (op : Op) (old : ℚ)
    (h : op = Op.ADD ∨ op = Op.SUB ∨ op = Op.MUL ∨ op = Op.POW) :
    ∀ (ts : List (List Char)) (cur : ℚ),
    (∀ t ∈ ts, (parseArgP t 0).2.2 = true) →
    specFoldTokens powFn op old cur ts =
      (ts.foldl (fun a t => (binaryP powFn op a (parseArgP t 0).1).1) cur,
        true) := by
  intro ts
  induction ts with
  | nil =>
    intro cur _
    simp [specFoldTokens]
  | cons t ts ih =>
    intro cur hall
    rw [specFoldTokens]
    rw [if_neg (by simp [hall t (by simp)])]
    rw [if_neg (by simp [binaryP_flag_true_of_total powFn op cur _ h])]
    rw [List.foldl_cons]
    exact ih _ (fun u hu => hall u (by simp [hu]))

theorem binaryP_val_of_flag_false (powFn : ℚ → ℚ → ℚ) (op : Op) (l r : ℚ)
    (h : (binaryP powFn op l r).2 = false) : (binaryP powFn op l r).1 = l := by
  cases op <;> simp only [binaryP] at h ⊢
  case DIV => split at h <;> simp_all
  case REM => split at h <;> simp_all
  all_goals exact absurd h (by simp)

theorem leftFoldLoop_val_of_flag_false (powFn : ℚ → ℚ → ℚ) (op : Op)
    (old : ℚ) (line : List Char) (current : ℚ) (i : Nat)
    (h : (leftFoldLoop powFn op old line current i).2 = false) :
    (leftFoldLoop powFn op old line current i).1 = old := by
  revert h
  induction current, i using leftFoldLoop.induct powFn op old line with
  | case1 current i h1 hpr =>
    intro _
    rw [leftFoldLoop, dif_pos h1, if_pos hpr]
  | case2 current i h1 hpr hbr =>
    intro _
    rw [leftFoldLoop, dif_pos h1, if_neg hpr, if_pos hbr]
  | case3 current i h1 hpr hbr ih =>
    intro h
    rw [leftFoldLoop, dif_pos h1, if_neg hpr, if_neg hbr] at h ⊢
    exact ih h
  | case4 current i h1 =>
    intro h
    rw [leftFoldLoop, dif_neg h1] at h
    simp at h

theorem leftFold_val_of_flag_false (powFn : ℚ → ℚ → ℚ) (current : ℚ)
    (line : List Char) (h : (leftFold powFn current line).2 = false) :
    (leftFold powFn current line).1 = current := by
  unfold leftFold at h ⊢
  split_ifs at h ⊢
  · rfl
  · rfl
  · exact leftFoldLoop_val_of_flag_false _ _ _ _ _ _ h

theorem unaryEval_val_of_flag_false (sqrtFn : ℚ → ℚ) (current : ℚ) (op : Op)
    (h : (unaryEval sqrtFn current op).2 = false) :
    (unaryEval sqrtFn current op).1 = current := by
  cases op <;> simp only [unaryEval] at h ⊢
  case SQRT =>
    by_cases hc : 0 < current
    · rw [if_pos hc] at h
      simp at h
    · rw [if_neg hc]
  all_goals exact absurd h (by simp)

theorem nonFoldP_val_of_flag_false (sqrtFn : ℚ → ℚ) (powFn : ℚ → ℚ → ℚ)
    (current : ℚ) (line : List Char)
    (h : (nonFoldP sqrtFn powFn current line).2 = false) :
    (nonFoldP sqrtFn powFn current line).1 = current := by
  unfold nonFoldP at h ⊢
  split_ifs at h ⊢
  · rfl
  · rfl
  · exact binaryP_val_of_flag_false _ _ _ _ h
  · rfl
  · exact unaryEval_val_of_flag_false _ _ _ h
  · rfl

theorem processLineP_val_of_flag_false (sqrtFn : ℚ → ℚ) (powFn : ℚ → ℚ → ℚ)
    (current : ℚ) (line : List Char)
    (h : (processLineP sqrtFn powFn current line).2 = false) :
    (processLineP sqrtFn powFn current line).1 = current := by
  unfold processLineP at h ⊢
  split_ifs at h ⊢
  · exact leftFold_val_of_flag_false _ _ _ h
  · exact nonFoldP_val_of_flag_false _ _ _ _ h

theorem foldLoopC_val_of_flag_false (powFn : ℚ → ℚ → ℚ) (op : Op) (isf : Bool)
    (line : List Char) (orig : ℚ) (res : ℚ) (i : Nat) (ts : List (List Char))
    (h : (foldLoopC powFn op isf line orig res i ts).2 = false) :
    (foldLoopC powFn op isf line orig res i ts).1 = orig := by
  induction ts generalizing res i with
  | nil => simp [foldLoopC] at h
  | cons t ts ih =>
    simp only [foldLoopC] at h ⊢
    split_ifs at h ⊢
    · rfl
    · rfl
    · exact ih _ _ h
    · rfl
    · rfl
    · exact ih _ _ h

theorem processLineC_val_of_flag_false (sqrtFn : ℚ → ℚ) (powFn : ℚ → ℚ → ℚ)
    (current : ℚ) (line : List Char)
    (h : (processLineC sqrtFn powFn current line).2 = false) :
    (processLineC sqrtFn powFn current line).1 = current := by
  unfold processLineC at h ⊢
  split_ifs at h ⊢
  · rfl
  · exact foldLoopC_val_of_flag_false _ _ _ _ _ _ _ _ h
  · rfl
  · exact unaryEval_val_of_flag_false _ _ _ h
  · rfl

/-- C1: For every accumulator value and every line whose evaluation fails for
any reason in the error taxonomy (unrecognized operator, malformed SQRT-like
token, argument-parse failure, unparsed suffix, missing argument, division
or remainder by zero, square root of a non-positive accumulator, or any
fold-specific error — exactly the outcomes the embedding flags false),
process_line returns exactly the accumulator value passed in, never a
partially updated value; proved for both source variants. -/
theorem claim_c1_failed_line_keeps_accumulator :
    (∀ (sqrtFn : ℚ → ℚ) (powFn : ℚ → ℚ → ℚ) (current : ℚ) (line : List Char),
      (processLineP sqrtFn powFn current line).2 = false →
      (processLineP sqrtFn powFn current line).1 = current) ∧
    (∀ (sqrtFn : ℚ → ℚ) (powFn : ℚ → ℚ → ℚ) (current : ℚ) (line : List Char),
      (processLineC sqrtFn powFn current line).2 = false →
      (processLineC sqrtFn powFn current line).1 = current) :=
  ⟨processLineP_val_of_flag_false, processLineC_val_of_flag_false⟩

/-- Witness for C1 at the concrete failing line consisting of the single
unknown operator character x, from accumulator 5. -/
theorem claim_c1_witness :
    (processLineP (fun _ => 0) (fun _ _ => 0) 5 lineUnknown).1 = 5 :=
  claim_c1_failed_line_keeps_accumulator.1 (fun _ => 0) (fun _ _ => 0) 5
    lineUnknown (by
      simp [processLineP, nonFoldP, parseOpP, lineUnknown, nulChar, arityOp])

/-- C2: Left-fold evaluation is all-or-nothing: every error exit of the fold
loop (token parse failure or failed binary step) returns the accumulator
from before the line, in both variants, and in particular the line
containing a plus fold over 1, x, 3 returns the original accumulator with
the error flag, never a partial sum. -/
theorem claim_c2_left_fold_all_or_nothing :
    (∀ (powFn : ℚ → ℚ → ℚ) (current : ℚ) (line : List Char),
      (leftFold powFn current line).2 = false →
      (leftFold powFn current line).1 = current) ∧
    (∀ (powFn : ℚ → ℚ → ℚ) (op : Op) (isf : Bool) (line : List Char)
      (orig res : ℚ) (i : Nat) (ts : List (List Char)),
      (foldLoopC powFn op isf line orig res i ts).2 = false →
      (foldLoopC powFn op isf line orig res i ts).1 = orig) ∧
    (∀ (sqrtFn : ℚ → ℚ) (powFn : ℚ → ℚ → ℚ) (current : ℚ),
      processLineP sqrtFn powFn current lineFoldBad = (current, false)) ∧
    (∀ (sqrtFn : ℚ → ℚ) (powFn : ℚ → ℚ → ℚ) (current : ℚ),
      processLineC sqrtFn powFn current lineFoldBad = (current, false)) := by
  refine ⟨leftFold_val_of_flag_false, ?_, ?_, ?_⟩
  · intro powFn op isf line orig res i ts h
    exact foldLoopC_val_of_flag_false powFn op isf line orig res i ts h
  · intro sqrtFn powFn current
    simp [processLineP, leftFold, leftFoldLoop, nonFoldP, parseOpP, parseArgP,
      parseArgLoop, skipWs, skipBracketsP, parseNumberLen, binaryP, unaryEval,
      isSpaceC, nulChar, digitVal, maxDecimalDigits, arityOp, lineFoldBad]
  · intro sqrtFn powFn current
    simp [processLineC, foldLoopC, parseOpC, deleteBrackets, deleteBracketsAux,
      parseArgC, parseArgLoop, skipWs, skipBracketsC, skipBracketsCAux,
      parseNumbersC, parseNumberLen, parseOpP, binaryC, unaryEval, isFoldC,
      isSpaceC, nulChar, digitVal, maxDecimalDigits, arityOp, lineFoldBad]

theorem rtrunc_neg (q : ℚ) : rtrunc (-q) = -rtrunc q := by
  rcases lt_trichotomy q 0 with h | h | h
  · rw [rtrunc, rtrunc, if_pos (by linarith), if_neg (by linarith)]
    exact Int.floor_neg
  · subst h
    simp [rtrunc]
  · rw [rtrunc, rtrunc, if_neg (by linarith), if_pos (by linarith)]
    exact Int.ceil_neg

theorem fmodQ_nonneg (l r : ℚ) (hl : 0 ≤ l) (hr : r ≠ 0) : 0 ≤ fmodQ l r := by
  unfold fmodQ rtrunc
  rcases lt_or_gt_of_ne hr with hneg | hpos
  · have hq : l / r ≤ 0 := div_nonpos_iff.mpr (Or.inl ⟨hl, hneg.le⟩)
    by_cases h0 : 0 ≤ l / r
    · have hq0 : l / r = 0 := le_antisymm hq h0
      rw [if_pos h0, hq0]
      simp [hl]
    · rw [if_neg h0]
      have hc : (l / r : ℚ) ≤ (⌈l / r⌉ : ℚ) := Int.le_ceil _
      have hm : r * (⌈l / r⌉ : ℚ) ≤ r * (l / r) :=
        mul_le_mul_of_nonpos_left hc hneg.le
      have hrl : r * (l / r) = l := by field_simp
      linarith
  · have hq : 0 ≤ l / r := div_nonneg hl hpos.le
    rw [if_pos hq]
    have hf : ((⌊l / r⌋ : ℤ) : ℚ) ≤ l / r := Int.floor_le _
    have hm : r * ((⌊l / r⌋ : ℤ) : ℚ) ≤ r * (l / r) :=
      mul_le_mul_of_nonneg_left hf hpos.le
    have hrl : r * (l / r) = l := by field_simp
    linarith

theorem fmodQ_neg_left (l r : ℚ) : fmodQ (-l) r = -fmodQ l r := by
  unfold fmodQ
  rw [neg_div, rtrunc_neg]
  push_cast
  ring

theorem fmodQ_nonpos (l r : ℚ) (hl : l ≤ 0) (hr : r ≠ 0) : fmodQ l r ≤ 0 := by
  have h1 : 0 ≤ fmodQ (-l) r := fmodQ_nonneg (-l) r (by linarith) hr
  rw [fmodQ_neg_left] at h1
  linarith

/-- Witness for C2: the aborted plus fold over 1, x, 3 from accumulator 7
returns 7. -/
theorem claim_c2_witness :
    (leftFold (fun _ _ => 0) 7 lineFoldBad).1 = 7 :=
  claim_c2_left_fold_all_or_nothing.1 (fun _ _ => 0) 7 lineFoldBad (by
    simp [leftFold, leftFoldLoop, parseOpP, parseArgP, parseArgLoop, skipWs,
      skipBracketsP, parseNumberLen, binaryP, isSpaceC, nulChar, digitVal,
      maxDecimalDigits, arityOp, lineFoldBad])

/-- C6: For Divide and Remainder with a single parsed argument: a right
operand of exactly zero fails and process_line returns the accumulator
unchanged; a nonzero right operand gives standard division, respectively
the remainder l - r * trunc(l / r), whose sign follows the dividend. Stated
for the binary evaluators of both variants and for the process_line of
src/unnamed/part_000 on the concrete division and remainder by zero. -/
theorem claim_c6_divide_remainder :
    (∀ (powFn : ℚ → ℚ → ℚ) (l r : ℚ), r = 0 →
      binaryP powFn Op.DIV l r = (l, false)) ∧
    (∀ (powFn : ℚ → ℚ → ℚ) (l r : ℚ), r ≠ 0 →
      binaryP powFn Op.DIV l r = (l / r, true)) ∧
    (∀ (powFn : ℚ → ℚ → ℚ) (l r : ℚ), r = 0 →
      binaryP powFn Op.REM l r = (l, false)) ∧
    (∀ (powFn : ℚ → ℚ → ℚ) (l r : ℚ), r ≠ 0 →
      binaryP powFn Op.REM l r = (fmodQ l r, true)) ∧
    (∀ (powFn : ℚ → ℚ → ℚ) (l r : ℚ) (g : Bool), r = 0 →
      binaryC powFn Op.DIV l r g = (l, false)) ∧
    (∀ (powFn : ℚ → ℚ → ℚ) (l r : ℚ) (g : Bool), r ≠ 0 →
      binaryC powFn Op.DIV l r g = (l / r, g)) ∧
    (∀ (l r : ℚ), r ≠ 0 →
      (0 ≤ l → 0 ≤ fmodQ l r) ∧ (l ≤ 0 → fmodQ l r ≤ 0)) ∧
    (∀ (sqrtFn : ℚ → ℚ) (powFn : ℚ → ℚ → ℚ) (current : ℚ),
      processLineP sqrtFn powFn current lineDiv0 = (current, false)) ∧
    (∀ (sqrtFn : ℚ → ℚ) (powFn : ℚ → ℚ → ℚ) (current : ℚ),
      processLineP sqrtFn powFn current lineRem0 = (current, false)) := by
  refine ⟨?_, ?_, ?_, ?_, ?_, ?_, ?_, ?_, ?_⟩
  · intro powFn l r hr
    simp [binaryP, hr]
  · intro powFn l r hr
    simp [binaryP, hr]
  · intro powFn l r hr
    simp [binaryP, hr]
  · intro powFn l r hr
    simp [binaryP, hr]
  · intro powFn l r g hr
    simp [binaryC, hr]
  · intro powFn l r g hr
    simp [binaryC, hr]
  · intro l r hr
    exact ⟨fun hl => fmodQ_nonneg l r hl hr, fun hl => fmodQ_nonpos l r hl hr⟩
  · intro sqrtFn powFn current
    simp [processLineP, leftFold, leftFoldLoop, nonFoldP, parseOpP, parseArgP,
      parseArgLoop, skipWs, skipBracketsP, parseNumberLen, binaryP, unaryEval,
      isSpaceC, nulChar, digitVal, maxDecimalDigits, arityOp, lineDiv0]
  · intro sqrtFn powFn current
    simp [processLineP, leftFold, leftFoldLoop, nonFoldP, parseOpP, parseArgP,
      parseArgLoop, skipWs, skipBracketsP, parseNumberLen, binaryP, unaryEval,
      isSpaceC, nulChar, digitVal, maxDecimalDigits, arityOp, lineRem0]

/-- Witness for C6: dividing 6 by 3 through the binary evaluator yields 2
with no error. -/
theorem claim_c6_witness :
    binaryP (fun _ _ => 0) Op.DIV 6 3 = (2, true) := by
  have h := claim_c6_divide_remainder.2.1 (fun _ _ => 0) 6 3 (by norm_num)
  rw [h]
  norm_num

/-- C7: For every accumulator value, a valid SQRT line returns the square
root of the accumulator when the accumulator is strictly positive, and
returns the accumulator unchanged with a diagnostic (the cleared flag) when
it is zero or negative; in particular SQRT on 9 yields 3 and on -9 yields
-9. sqrtFn stands for std::sqrt, whose defining property at 9 is the
hypothesis of the concrete conjuncts. -/
theorem claim_c7_square_root :
    (∀ (sqrtFn : ℚ → ℚ) (current : ℚ), 0 < current →
      unaryEval sqrtFn current Op.SQRT = (sqrtFn current, true)) ∧
    (∀ (sqrtFn : ℚ → ℚ) (current : ℚ), current ≤ 0 →
      unaryEval sqrtFn current Op.SQRT = (current, false)) ∧
    (∀ (sqrtFn : ℚ → ℚ) (powFn : ℚ → ℚ → ℚ), sqrtFn 9 = 3 →
      processLineP sqrtFn powFn 9 lineSqrt = (3, true)) ∧
    (∀ (sqrtFn : ℚ → ℚ) (powFn : ℚ → ℚ → ℚ),
      processLineP sqrtFn powFn (-9) lineSqrt = (-9, false)) ∧
    (∀ (sqrtFn : ℚ → ℚ) (powFn : ℚ → ℚ → ℚ), sqrtFn 9 = 3 →
      processLineC sqrtFn powFn 9 lineSqrt = (3, true)) := by
  refine ⟨?_, ?_, ?_, ?_, ?_⟩
  · intro sqrtFn current hc
    simp [unaryEval, hc]
  · intro sqrtFn current hc
    simp [unaryEval, not_lt.mpr hc]
  · intro sqrtFn powFn hs
    simp [processLineP, nonFoldP, parseOpP, unaryEval, arityOp, nulChar,
      lineSqrt, hs]
  · intro sqrtFn powFn
    simp [processLineP, nonFoldP, parseOpP, unaryEval, arityOp, nulChar,
      lineSqrt]
  · intro sqrtFn powFn hs
    simp [processLineC, parseOpC, deleteBrackets, deleteBracketsAux, parseOpP,
      unaryEval, arityOp, nulChar, isSpaceC, lineSqrt, hs]

/-- Witness for C7: with a sqrtFn mapping 9 to 3 (as std::sqrt does), the
SQRT line on accumulator 9 yields 3. -/
theorem claim_c7_witness :
    processLineP (fun q => if q = 9 then 3 else 0) (fun _ _ => 0) 9 lineSqrt =
      (3, true) :=
  claim_c7_square_root.2.2.1 (fun q => if q = 9 then 3 else 0) (fun _ _ => 0)
    (by norm_num)

/-- C8: A unary line (Negate or SquareRoot) is valid exactly when nothing
follows the operator: any trailing suffix, including one that is only
whitespace, fails with the accumulator unchanged; and on a valid Negate
line the result is the arithmetic negation of the accumulator,
unconditionally. -/
theorem claim_c8_unary_suffix :
    (∀ (sqrtFn : ℚ → ℚ) (current : ℚ),
      unaryEval sqrtFn current Op.NEG = (-current, true)) ∧
    (∀ (sqrtFn : ℚ → ℚ) (powFn : ℚ → ℚ → ℚ) (current : ℚ),
      processLineP sqrtFn powFn current lineNeg = (-current, true)) ∧
    (∀ (sqrtFn : ℚ → ℚ) (powFn : ℚ → ℚ → ℚ) (current : ℚ) (s : List Char),
      s ≠ [] → processLineP sqrtFn powFn current ('_' :: s) = (current, false)) ∧
    (∀ (sqrtFn : ℚ → ℚ) (powFn : ℚ → ℚ → ℚ) (current : ℚ) (s : List Char),
      s ≠ [] → processLineP sqrtFn powFn current
        ('S' :: 'Q' :: 'R' :: 'T' :: s) = (current, false)) := by
  refine ⟨?_, ?_, ?_, ?_⟩
  · intro sqrtFn current
    simp [unaryEval]
  · intro sqrtFn powFn current
    simp [processLineP, nonFoldP, parseOpP, unaryEval, arityOp, nulChar,
      lineNeg]
  · intro sqrtFn powFn current s hs
    have hpos : 0 < s.length := List.length_pos.mpr hs
    simp [processLineP, nonFoldP, parseOpP, unaryEval, arityOp, nulChar, hpos]
  · intro sqrtFn powFn current s hs
    have hpos : 0 < s.length := List.length_pos.mpr hs
    simp [processLineP, nonFoldP, parseOpP, unaryEval, arityOp, nulChar, hpos]

/-- Witness for C8: the Negate line with a trailing space, from accumulator
4, fails and keeps 4 (the whitespace suffix is not tolerated). -/
theorem claim_c8_witness :
    processLineP (fun _ => 0) (fun _ _ => 0) 4 ('_' :: [' ']) = (4, false) :=
  claim_c8_unary_suffix.2.2.1 (fun _ => 0) (fun _ _ => 0) 4 [' '] (by simp)

/-- C5 counterexample: the literal line SET 5 is NOT the Set form: its
leading S starts a failed SQRT match (S then E), so parse_op reports an
unknown operation and process_line returns the accumulator unchanged; from
accumulator 0 the result is 0 with the error flag, not 5. -/
theorem claim_c5_counterexample :
    processLineP (fun _ => 0) (fun _ _ => 0) 0 lineSet5 = (0, false) := by
  simp [processLineP, nonFoldP, parseOpP, unaryEval, arityOp, nulChar,
    lineSet5]

/-- C5 amended: evaluating the bare-digit line 5 from any accumulator
yields 5 (the Set operation results in the parsed value, ignoring the
accumulator), in both variants; Set is the operation recognized when the
first unconsumed character is a decimal digit, with the cursor not advanced
past it. -/
theorem claim_c5_amended_set_digit :
    (∀ (sqrtFn : ℚ → ℚ) (powFn : ℚ → ℚ → ℚ) (current : ℚ),
      processLineP sqrtFn powFn current lineDigit5 = (5, true)) ∧
    (∀ (sqrtFn : ℚ → ℚ) (powFn : ℚ → ℚ → ℚ) (current : ℚ),
      processLineC sqrtFn powFn current lineDigit5 = (5, true)) ∧
    (∀ (line : List Char) (i : Nat), (line.getD i nulChar).isDigit = true →
      parseOpP line i = (Op.SET, i)) := by
  refine ⟨?_, ?_, ?_⟩
  · intro sqrtFn powFn current
    simp [processLineP, leftFold, leftFoldLoop, nonFoldP, parseOpP, parseArgP,
      parseArgLoop, skipWs, skipBracketsP, parseNumberLen, binaryP, unaryEval,
      isSpaceC, nulChar, digitVal, maxDecimalDigits, arityOp, lineDigit5]
  · intro sqrtFn powFn current
    simp [processLineC, foldLoopC, parseOpC, deleteBrackets, deleteBracketsAux,
      parseArgC, parseArgLoop, skipWs, skipBracketsC, skipBracketsCAux,
      parseNumbersC, parseNumberLen, parseOpP, binaryC, unaryEval, isFoldC,
      isSpaceC, nulChar, digitVal, maxDecimalDigits, arityOp, lineDigit5]
  · intro line i h
    simp only [parseOpP]
    rw [if_pos h]
    simp

/-- Witness for the amended C5: on the bare-digit line, parse_op recognizes
Set at cursor 0 and leaves the cursor there. -/
theorem claim_c5_witness :
    parseOpP lineDigit5 0 = (Op.SET, 0) :=
  claim_c5_amended_set_digit.2.2 lineDigit5 0 (by decide)

/-- C9: In process_line of src/unnamed/part_000, a line is evaluated in
left-fold mode exactly when character 0 is an opening bracket and character
2 is a closing bracket (so position 1 holds exactly one operator
character); every other line takes the plain non-fold path, and in
particular any line carrying the four-character SQRT keyword after an
opening bracket is never fold-evaluated. -/
theorem claim_c9_fold_dispatch :
    (∀ (sqrtFn : ℚ → ℚ) (powFn : ℚ → ℚ → ℚ) (current : ℚ) (line : List Char),
      line.getD 0 nulChar = '(' → line.getD 2 nulChar = ')' →
      processLineP sqrtFn powFn current line = leftFold powFn current line) ∧
    (∀ (sqrtFn : ℚ → ℚ) (powFn : ℚ → ℚ → ℚ) (current : ℚ) (line : List Char),
      ¬(line.getD 0 nulChar = '(' ∧ line.getD 2 nulChar = ')') →
      processLineP sqrtFn powFn current line =
        nonFoldP sqrtFn powFn current line) ∧
    (∀ (sqrtFn : ℚ → ℚ) (powFn : ℚ → ℚ → ℚ) (current : ℚ) (s : List Char),
      processLineP sqrtFn powFn current
          ('(' :: 'S' :: 'Q' :: 'R' :: 'T' :: s) =
        nonFoldP sqrtFn powFn current ('(' :: 'S' :: 'Q' :: 'R' :: 'T' :: s)) := by
  refine ⟨?_, ?_, ?_⟩
  · intro sqrtFn powFn current line h0 h2
    unfold processLineP
    rw [if_pos ⟨h0, h2⟩]
  · intro sqrtFn powFn current line h
    unfold processLineP
    rw [if_neg h]
  · intro sqrtFn powFn current s
    unfold processLineP
    rw [if_neg (by simp)]

theorem parseArgLoop_valid_completes (line : List Char) :
    ∀ (i count : Nat) (integer : Bool) (res frac : ℚ),
    i ≤ line.length →
    (∀ k, i ≤ k → k < line.length →
      ((line.getD k nulChar).isDigit = true ∨ line.getD k nulChar = '.')) →
    count + digitCount (line.drop i) < maxDecimalDigits →
    (parseArgLoop line i count integer res frac).2.1 = line.length ∧
    (parseArgLoop line i count integer res frac).2.2.2 = true := by
  intro i count integer res frac
  induction i, count, integer, res, frac using parseArgLoop.induct line with
  | case1 i count res frac h hdig ih =>
    intro hle hval hbud
    have hdc : digitCount (line.drop i) = 1 + digitCount (line.drop (i + 1)) := by
      rw [drop_eq_getD_cons line i h.1, digitCount_cons, if_pos hdig]
    rw [parseArgLoop, dif_pos h, if_pos hdig, if_pos rfl]
    exact ih (by omega) (fun k hk1 hk2 => hval k (by omega) hk2) (by omega)
  | case2 i count integer res frac h hdig hni ih =>
    intro hle hval hbud
    have hdc : digitCount (line.drop i) = 1 + digitCount (line.drop (i + 1)) := by
      rw [drop_eq_getD_cons line i h.1, digitCount_cons, if_pos hdig]
    rw [parseArgLoop, dif_pos h, if_pos hdig, if_neg hni]
    exact ih (by omega) (fun k hk1 hk2 => hval k (by omega) hk2) (by omega)
  | case3 i count integer res frac h hnd hdot ih =>
    intro hle hval hbud
    have hdc : digitCount (line.drop i) = 0 + digitCount (line.drop (i + 1)) := by
      rw [drop_eq_getD_cons line i h.1, digitCount_cons,
        if_neg (by simpa using hnd)]
    rw [parseArgLoop, dif_pos h, if_neg (by simpa using hnd), if_pos hdot]
    exact ih (by omega) (fun k hk1 hk2 => hval k (by omega) hk2) (by omega)
  | case4 i count integer res frac h hnd hne =>
    intro hle hval hbud
    rcases hval i (Nat.le_refl i) h.1 with hd | hd
    · exact absurd hd (by simpa using hnd)
    · exact absurd hd hne
  | case5 i count integer res frac h =>
    intro hle hval hbud
    rcases not_and_or.mp h with h1 | h2
    · have hi : i = line.length := by omega
      rw [parseArgLoop, dif_neg h]
      exact ⟨hi, rfl⟩
    · exact absurd (by omega : count < maxDecimalDigits) h2

theorem parseArgLoop_digits_value (line : List Char) :
    ∀ (i count : Nat) (integer : Bool) (res frac : ℚ),
    integer = true →
    i ≤ line.length →
    (∀ k, i ≤ k → k < line.length → (line.getD k nulChar).isDigit = true) →
    count + (line.length - i) ≤ maxDecimalDigits →
    parseArgLoop line i count integer res frac =
      ((line.drop i).foldl (fun a c => a * 10 + (digitVal c : ℚ)) res,
        line.length, count + (line.length - i), true) := by
  intro i count integer res frac
  induction i, count, integer, res, frac using parseArgLoop.induct line with
  | case1 i count res frac h hdig ih =>
    intro _ hle hval hbud
    rw [parseArgLoop, dif_pos h, if_pos hdig, if_pos rfl]
    rw [ih rfl (by omega) (fun k hk1 hk2 => hval k (by omega) hk2) (by omega)]
    rw [drop_eq_getD_cons line i h.1, List.foldl_cons]
    have hc : count + 1 + (line.length - (i + 1)) = count + (line.length - i) := by
      omega
    rw [hc]
  | case2 i count integer res frac h hdig hni ih =>
    intro hint _ _ _
    exact absurd hint hni
  | case3 i count integer res frac h hnd hdot ih =>
    intro _ _ hval _
    exact absurd (hval i (Nat.le_refl i) h.1) hnd
  | case4 i count integer res frac h hnd hne =>
    intro _ _ hval _
    exact absurd (hval i (Nat.le_refl i) h.1) hnd
  | case5 i count integer res frac h =>
    intro _ hle hval hbud
    by_cases hi : i < line.length
    · have h2 : ¬count < maxDecimalDigits := by
        rcases not_and_or.mp h with h1 | h2
        · exact absurd hi h1
        · exact h2
      exact absurd (by omega : count < maxDecimalDigits) h2
    · have hieq : i = line.length := by omega
      subst hieq
      rw [parseArgLoop, dif_neg h, List.drop_eq_nil_of_le (Nat.le_refl _)]
      simp

theorem parseArgLoop_abort (line : List Char) :
    ∀ (i count : Nat) (integer : Bool) (res frac : ℚ),
    ∀ (j : Nat),
    i ≤ j → j < line.length →
    (∀ k, i ≤ k → k < j →
      ((line.getD k nulChar).isDigit = true ∨ line.getD k nulChar = '.')) →
    count + digitCount ((line.drop i).take (j - i)) < maxDecimalDigits →
    (line.getD j nulChar).isDigit = false →
    ¬line.getD j nulChar = '.' →
    (parseArgLoop line i count integer res frac).2.1 = j ∧
    (parseArgLoop line i count integer res frac).2.2.2 = false := by
  intro i count integer res frac
  induction i, count, integer, res, frac using parseArgLoop.induct line with
  | case1 i count res frac h hdig ih =>
    intro j hij hjl hval hbud hjd hjdot
    have hne : i ≠ j := by
      intro he
      rw [he] at hdig
      rw [hdig] at hjd
      simp at hjd
    have hseg : (line.drop i).take (j - i) =
        line.getD i nulChar :: (line.drop (i + 1)).take (j - (i + 1)) := by
      rw [drop_eq_getD_cons line i h.1,
        (by omega : j - i = (j - (i + 1)) + 1), List.take_succ_cons]
    rw [hseg, digitCount_cons, if_pos hdig] at hbud
    rw [parseArgLoop, dif_pos h, if_pos hdig, if_pos rfl]
    exact ih j (by omega) hjl (fun k hk1 hk2 => hval k (by omega) hk2)
      (by omega) hjd hjdot
  | case2 i count integer res frac h hdig hni ih =>
    intro j hij hjl hval hbud hjd hjdot
    have hne : i ≠ j := by
      intro he
      rw [he] at hdig
      rw [hdig] at hjd
      simp at hjd
    have hseg : (line.drop i).take (j - i) =
        line.getD i nulChar :: (line.drop (i + 1)).take (j - (i + 1)) := by
      rw [drop_eq_getD_cons line i h.1,
        (by omega : j - i = (j - (i + 1)) + 1), List.take_succ_cons]
    rw [hseg, digitCount_cons, if_pos hdig] at hbud
    rw [parseArgLoop, dif_pos h, if_pos hdig, if_neg hni]
    exact ih j (by omega) hjl (fun k hk1 hk2 => hval k (by omega) hk2)
      (by omega) hjd hjdot
  | case3 i count integer res frac h hnd hdot ih =>
    intro j hij hjl hval hbud hjd hjdot
    have hne : i ≠ j := by
      intro he
      rw [he] at hdot
      exact hjdot hdot
    have hseg : (line.drop i).take (j - i) =
        line.getD i nulChar :: (line.drop (i + 1)).take (j - (i + 1)) := by
      rw [drop_eq_getD_cons line i h.1,
        (by omega : j - i = (j - (i + 1)) + 1), List.take_succ_cons]
    rw [hseg, digitCount_cons, if_neg (by simpa using hnd)] at hbud
    rw [parseArgLoop, dif_pos h, if_neg (by simpa using hnd), if_pos hdot]
    exact ih j (by omega) hjl (fun k hk1 hk2 => hval k (by omega) hk2)
      (by omega) hjd hjdot
  | case4 i count integer res frac h hnd hne =>
    intro j hij hjl hval hbud hjd hjdot
    have hij2 : i = j := by
      rcases Nat.lt_or_ge i j with hx | hx
      · rcases hval i (Nat.le_refl i) hx with hd | hd
        · exact absurd hd (by simpa using hnd)
        · exact absurd hd hne
      · omega
    rw [parseArgLoop, dif_pos h, if_neg (by simpa using hnd),
      if_neg (by simpa using hne)]
    exact ⟨hij2, rfl⟩
  | case5 i count integer res frac h =>
    intro j hij hjl hval hbud hjd hjdot
    rcases not_and_or.mp h with h1 | h2
    · exact absurd (by omega : i < line.length) h1
    · exact absurd (by omega : count < maxDecimalDigits) h2

theorem parseArgLoop_accounting (line : List Char) :
    ∀ (i count : Nat) (integer : Bool) (res frac : ℚ),
    i ≤ line.length → count ≤ maxDecimalDigits →
    i ≤ (parseArgLoop line i count integer res frac).2.1 ∧
    (parseArgLoop line i count integer res frac).2.1 ≤ line.length ∧
    (parseArgLoop line i count integer res frac).2.2.1 ≤ maxDecimalDigits ∧
    count + digitCount (line.drop i) =
      (parseArgLoop line i count integer res frac).2.2.1 +
        digitCount (line.drop (parseArgLoop line i count integer res frac).2.1) := by
  intro i count integer res frac
  induction i, count, integer, res, frac using parseArgLoop.induct line with
  | case1 i count res frac h hdig ih =>
    intro hle hcnt
    have hdc : digitCount (line.drop i) = 1 + digitCount (line.drop (i + 1)) := by
      rw [drop_eq_getD_cons line i h.1, digitCount_cons, if_pos hdig]
    rw [parseArgLoop, dif_pos h, if_pos hdig, if_pos rfl]
    have hrec := ih (by omega) (by omega)
    exact ⟨by omega, hrec.2.1, hrec.2.2.1, by omega⟩
  | case2 i count integer res frac h hdig hni ih =>
    intro hle hcnt
    have hdc : digitCount (line.drop i) = 1 + digitCount (line.drop (i + 1)) := by
      rw [drop_eq_getD_cons line i h.1, digitCount_cons, if_pos hdig]
    rw [parseArgLoop, dif_pos h, if_pos hdig, if_neg hni]
    have hrec := ih (by omega) (by omega)
    exact ⟨by omega, hrec.2.1, hrec.2.2.1, by omega⟩
  | case3 i count integer res frac h hnd hdot ih =>
    intro hle hcnt
    have hdc : digitCount (line.drop i) = 0 + digitCount (line.drop (i + 1)) := by
      rw [drop_eq_getD_cons line i h.1, digitCount_cons,
        if_neg (by simpa using hnd)]
    rw [parseArgLoop, dif_pos h, if_neg (by simpa using hnd), if_pos hdot]
    have hrec := ih (by omega) hcnt
    exact ⟨by omega, hrec.2.1, hrec.2.2.1, by omega⟩
  | case4 i count integer res frac h hnd hne =>
    intro hle hcnt
    rw [parseArgLoop, dif_pos h, if_neg (by simpa using hnd),
      if_neg (by simpa using hne)]
    exact ⟨Nat.le_refl i, hle, hcnt, rfl⟩
  | case5 i count integer res frac h =>
    intro hle hcnt
    rw [parseArgLoop, dif_neg h]
    exact ⟨Nat.le_refl i, hle, hcnt, rfl⟩

/-- Witness for C9: the concrete fold line dispatches to left_fold. -/
theorem claim_c9_witness :
    processLineP (fun _ => 0) (fun _ _ => 0) 0 lineFoldAdd =
      leftFold (fun _ _ => 0) 0 lineFoldAdd :=
  claim_c9_fold_dispatch.1 (fun _ => 0) (fun _ _ => 0) 0 lineFoldAdd
    (by decide) (by decide)

/-- Example literal containing two decimal points. -/
def litTwoPoints : List Char := "1.2.3".toList

/-- Example fractional literal. -/
def lineFracExample : List Char := "2.5".toList

/-- Example literal of 11 characters holding exactly 10 digits and one
decimal point. -/
def lineTenDigitsPoint : List Char := "1234.567890".toList

/-- Example literal of 11 zero digits. -/
def lineElevenZeros : List Char := "00000000000".toList

/-- Example literal of a decimal point followed by 10 zero digits. -/
def linePointTenZeros : List Char := ".0000000000".toList

/-- Example literal of 12 digits. -/
def lineTwelveDigits : List Char := "123456789012".toList

/-- C4 counterexample: the literal 1.2.3 contains a second decimal point,
which the claim says must abort parsing as a failure at that position; the
parser instead consumes the whole literal successfully (good stays true,
all five characters consumed) with value 1.23, the second point being a
no-op. -/
theorem claim_c4_counterexample :
    parseArgP litTwoPoints 0 = (123 / 100, 5, true) := by
  simp [parseArgP, parseArgLoop, litTwoPoints, nulChar, digitVal,
    maxDecimalDigits]
  norm_num

/-- C4 amended: the numeric-literal parser accepts exactly the strings made
of digit characters and any number of decimal points (the first point
switches to fractional accumulation, later points are consumed with no
effect), up to 10 significant digits total, computing the value by
multiply-by-10-and-add for digits before the point and by a fractional
weight divided by 10 per digit after the point; any character that is
neither a digit nor a decimal point aborts literal parsing as a failure at
that position. -/
theorem claim_c4_amended_literal_grammar :
    (∀ (line : List Char),
      (∀ c ∈ line, c.isDigit = true ∨ c = '.') →
      digitCount line < maxDecimalDigits →
      (parseArgP line 0).2.1 = line.length ∧ (parseArgP line 0).2.2 = true) ∧
    (∀ (line : List Char) (j : Nat), j < line.length →
      (∀ k, k < j →
        ((line.getD k nulChar).isDigit = true ∨ line.getD k nulChar = '.')) →
      digitCount (line.take j) < maxDecimalDigits →
      (line.getD j nulChar).isDigit = false →
      ¬line.getD j nulChar = '.' →
      (parseArgP line 0).2.1 = j ∧ (parseArgP line 0).2.2 = false) ∧
    (∀ (line : List Char),
      (∀ c ∈ line, c.isDigit = true) →
      line.length ≤ maxDecimalDigits →
      parseArgP line 0 =
        (line.foldl (fun a c => a * 10 + (digitVal c : ℚ)) 0,
          line.length, true)) ∧
    ((parseArgP lineFracExample 0).1 = 5 / 2) := by
  refine ⟨?_, ?_, ?_, ?_⟩
  · intro line hmem hdc
    have hval : ∀ k, 0 ≤ k → k < line.length →
        ((line.getD k nulChar).isDigit = true ∨ line.getD k nulChar = '.') := by
      intro k _ hk
      have hm : line.getD k nulChar ∈ line := by
        rw [List.getD_eq_getElem line nulChar hk]
        exact List.getElem_mem hk
      exact hmem _ hm
    have h1 := parseArgLoop_valid_completes line 0 0 true 0 1 (Nat.zero_le _)
      hval (by simpa using hdc)
    exact ⟨h1.1, h1.2⟩
  · intro line j hjl hval hbud hjd hjdot
    have h1 := parseArgLoop_abort line 0 0 true 0 1 j (Nat.zero_le _) hjl
      (fun k _ hk2 => hval k hk2) (by simpa using hbud) hjd hjdot
    exact ⟨h1.1, h1.2⟩
  · intro line hmem hlen
    have hval : ∀ k, 0 ≤ k → k < line.length →
        (line.getD k nulChar).isDigit = true := by
      intro k _ hk
      have hm : line.getD k nulChar ∈ line := by
        rw [List.getD_eq_getElem line nulChar hk]
        exact List.getElem_mem hk
      exact hmem _ hm
    have h2 := parseArgLoop_digits_value line 0 0 true 0 1 rfl (Nat.zero_le _)
      hval (by simpa using hlen)
    have h3 : parseArgP line 0 =
        ((parseArgLoop line 0 0 true 0 1).1,
          (parseArgLoop line 0 0 true 0 1).2.1,
          (parseArgLoop line 0 0 true 0 1).2.2.2) := rfl
    rw [h3, h2]
    simp
  · simp [parseArgP, parseArgLoop, lineFracExample, nulChar, digitVal,
      maxDecimalDigits]
    norm_num

/-- Witness for the amended C4: the fractional literal 2.5 is fully
consumed with success. -/
theorem claim_c4_witness :
    (parseArgP lineFracExample 0).2.1 = lineFracExample.length ∧
    (parseArgP lineFracExample 0).2.2 = true :=
  claim_c4_amended_literal_grammar.1 lineFracExample (by decide) (by decide)

/-- C10: In the numeric-literal parser only digit characters count toward
the 10-digit cap (every digit counts, including leading zeros and zeros
after the point, while the decimal point consumes a position without
counting): an 11-character literal with exactly 10 digits and one point is
fully consumed, whereas any literal with more than 10 digit characters is
never fully consumed and leaves at least one further digit in the
unconsumed suffix. -/
theorem claim_c10_digit_cap :
    (parseArgP lineTenDigitsPoint 0 = (123456789 / 100000, 11, true)) ∧
    (∀ (line : List Char), maxDecimalDigits < digitCount line →
      (parseArgP line 0).2.1 < line.length ∧
      0 < digitCount (line.drop (parseArgP line 0).2.1)) ∧
    (parseArgP lineElevenZeros 0 = (0, 10, true)) ∧
    (parseArgP linePointTenZeros 0 = (0, 11, true)) := by
  refine ⟨?_, ?_, ?_, ?_⟩
  · simp [parseArgP, parseArgLoop, lineTenDigitsPoint, nulChar, digitVal,
      maxDecimalDigits]
    norm_num
  · intro line hdc
    show (parseArgLoop line 0 0 true 0 1).2.1 < line.length ∧
      0 < digitCount (line.drop (parseArgLoop line 0 0 true 0 1).2.1)
    obtain ⟨hp1, hp2, hcnt, heq⟩ :=
      parseArgLoop_accounting line 0 0 true 0 1 (Nat.zero_le _) (Nat.zero_le _)
    rw [List.drop_zero] at heq
    have hpos : 0 < digitCount (line.drop (parseArgLoop line 0 0 true 0 1).2.1) := by
      omega
    refine ⟨?_, hpos⟩
    by_contra hcon
    push_neg at hcon
    rw [List.drop_eq_nil_of_le hcon] at hpos
    simp [digitCount] at hpos
  · simp [parseArgP, parseArgLoop, lineElevenZeros, nulChar, digitVal,
      maxDecimalDigits]
  · simp [parseArgP, parseArgLoop, linePointTenZeros, nulChar, digitVal,
      maxDecimalDigits]

/-- Witness for C10 at a 12-digit literal: it is not fully consumed and the
suffix still holds a digit. -/
theorem claim_c10_witness :
    (parseArgP lineTwelveDigits 0).2.1 < lineTwelveDigits.length ∧
    0 < digitCount (lineTwelveDigits.drop (parseArgP lineTwelveDigits 0).2.1) :=
  claim_c10_digit_cap.2.1 lineTwelveDigits (by decide)

/-- C3: On a fully valid left-fold line, process_line of src/unnamed/part_000
returns the left fold of the recognized binary operator over the
whitespace-delimited numeric tokens, seeded with the current accumulator,
each token parsed with its own local cursor reset to zero: the fold loop
computes exactly the specification-side token fold, the dispatch composes
it under the fold-shape and operator validity conditions, the token fold of
a never-failing operator over well-parsed tokens is a List.foldl, and in
particular the plus fold over 1 2 3 applied to accumulator 0 yields 6. -/
theorem claim_c3_valid_fold_is_left_fold :
    (∀ (powFn : ℚ → ℚ → ℚ) (op : Op) (old cur : ℚ) (line : List Char)
      (i : Nat),
      (i < line.length → isSpaceC (line.getD i nulChar) = false) →
      leftFoldLoop powFn op old line cur i =
        specFoldTokens powFn op old cur (wsTokens (line.drop i))) ∧
    (∀ (sqrtFn : ℚ → ℚ) (powFn : ℚ → ℚ → ℚ) (current : ℚ) (line : List Char),
      line.getD 0 nulChar = '(' → line.getD 2 nulChar = ')' →
      arityOp (parseOpP line 1).1 = 2 → (parseOpP line 1).1 ≠ Op.SET →
      skipWs line (skipBracketsP line 0) ≠ line.length →
      processLineP sqrtFn powFn current line =
        specFoldTokens powFn (parseOpP line 1).1 current current
          (wsTokens (line.drop (skipWs line (skipBracketsP line 0))))) ∧
    (∀ (powFn : ℚ → ℚ → ℚ) (op : Op) (old cur : ℚ) (ts : List (List Char)),
      (op = Op.ADD ∨ op = Op.SUB ∨ op = Op.MUL ∨ op = Op.POW) →
      (∀ t ∈ ts, (parseArgP t 0).2.2 = true) →
      specFoldTokens powFn op old cur ts =
        (ts.foldl (fun a t => (binaryP powFn op a (parseArgP t 0).1).1) cur,
          true)) ∧
    (processLineP (fun _ => 0) (fun _ _ => 0) 0 lineFoldAdd = (6, true)) := by
  refine ⟨?_, ?_, ?_, ?_⟩
  · intro powFn op old cur line i hnw
    exact leftFoldLoop_eq_specFold powFn op old line cur i hnw
  · intro sqrtFn powFn current line h0 h2 har hset hne
    unfold processLineP
    rw [if_pos ⟨h0, h2⟩]
    unfold leftFold
    rw [if_neg (by simp [har, hset]), if_neg hne]
    exact leftFoldLoop_eq_specFold powFn (parseOpP line 1).1 current line
      current (skipWs line (skipBracketsP line 0))
      (skipWs_not_ws line (skipBracketsP line 0))
  · intro powFn op old cur ts hop hall
    exact specFoldTokens_foldl powFn op old hop ts cur hall
  · simp [processLineP, leftFold, leftFoldLoop, nonFoldP, parseOpP, parseArgP,
      parseArgLoop, skipWs, skipBracketsP, parseNumberLen, binaryP, unaryEval,
      isSpaceC, nulChar, digitVal, maxDecimalDigits, arityOp, lineFoldAdd]
    norm_num

/-- Witness for C3: the valid fold line, from accumulator 5, dispatches to
the specification token fold (hypotheses discharged concretely). -/
theorem claim_c3_witness :
    processLineP (fun _ => 0) (fun _ _ => 0) 5 lineFoldAdd =
      specFoldTokens (fun _ _ => 0) (parseOpP lineFoldAdd 1).1 5 5
        (wsTokens (lineFoldAdd.drop
          (skipWs lineFoldAdd (skipBracketsP lineFoldAdd 0)))) :=
  claim_c3_valid_fold_is_left_fold.2.1 (fun _ => 0) (fun _ _ => 0) 5
    lineFoldAdd (by decide) (by decide) (by decide) (by decide)
    (by simp [skipWs, skipBracketsP, lineFoldAdd, isSpaceC, nulChar])

end CalcFold
